import Mathlib

/-!
Verification of the hybrid news-recommendation engine
(`backend/app/services/collaborative_filtering.py`,
`backend/app/services/hybrid_recommendation.py`,
`backend/app/services/langchain_service.py`, `backend/app/main.py`)
against its natural-language specification.

Numeric scores are embedded as exact rationals (`ℚ`): every constant in the
source (0.5, 1.2, 1.5, 2.5, 0.7, ...) is a decimal literal, and none of the
claims under study depends on binary floating-point rounding.

Interactions are modelled as the list returned by the Mongo query
(`user_interactions_collection.find({"timestamp": {"$gte": start_date}})`):
the trailing-window filter happens inside the database, so the embedding
starts from the already-windowed list.
-/

namespace AINRS

/-- One interaction document, with the fields read by
`build_user_item_matrix` and `record_detailed_interaction`.
`interaction_type = none` models a document without the field
(read back by `interaction.get("interaction_type", "click")`);
`dwell_time_seconds = none` models `"dwell_time_seconds" not in metadata`,
and similarly for `scroll_depth_percent`. -/
structure Interaction where
  user_id : String
  news_id : String
  interaction_type : Option String
  dwell_time_seconds : Option ℚ
  scroll_depth_percent : Option ℚ
deriving Repr, DecidableEq

/-- The `interaction_weights` dict of `build_user_item_matrix`
(collaborative_filtering.py lines 67–75).  Note the key `"save"`:
the table has no `"bookmark"` entry. -/
def interaction_weights : List (String × ℚ) :=
  [("view", 1/2), ("click", 1), ("read", 2), ("like", 3),
   ("share", 4), ("comment", 3), ("save", 5/2)]

/-- `interaction.get("interaction_type", "click")` followed by
`interaction_weights.get(interaction_type, 1.0)` (lines 90–91). -/
def baseWeight (i : Interaction) : ℚ :=
  (interaction_weights.lookup (i.interaction_type.getD "click")).getD 1

/-- The dwell-time scaling of lines 94–102: applied only when
`"dwell_time_seconds"` is present in the metadata, multiplier
2.0 / 1.5 / 1.2 / 1 by thresholds 300, 120, 60. -/
def dwellMultiplier (i : Interaction) : ℚ :=
  match i.dwell_time_seconds with
  | none => 1
  | some d => if d > 300 then 2 else if d > 120 then 3/2 else if d > 60 then 6/5 else 1

/-- The full per-interaction weight that `build_user_item_matrix` writes
into the matrix: base weight times dwell multiplier.  The builder reads
no other metadata field (in particular it never looks at
`scroll_depth_percent`). -/
def interactionWeight (i : Interaction) : ℚ :=
  baseWeight i * dwellMultiplier i

/-- Append `u` if not already present: one step of building an
insertion-ordered list of distinct keys (the iteration order of a Python
dict / of `set` membership tests while appending). -/
def insertOnce (l : List String) (u : String) : List String :=
  if u ∈ l then l else l ++ [u]

/-- `user_counts[user_id]` after the counting loop (lines 42–45):
the number of windowed interactions whose `user_id` is `u`. -/
def userCount (ints : List Interaction) (u : String) : Nat :=
  (ints.filter (fun i => i.user_id = u)).length

/-- The distinct user ids, in first-occurrence order (the key order of the
`user_counts` dict). -/
def distinctUsers (ints : List Interaction) : List String :=
  ints.foldl (fun l i => insertOnce l i.user_id) []

/-- `active_users` (line 48): users with at least `minInteractions`
interactions in the window. -/
def activeUsers (ints : List Interaction) (minInteractions : Nat) : List String :=
  (distinctUsers ints).filter (fun u => minInteractions ≤ userCount ints u)

/-- Code-point comparison of characters, the primitive of Python's
string ordering. -/
def charLt (a b : Char) : Bool := decide (a.val < b.val)

/-- Lexicographic ≤ on code-point sequences: Python's `str` ordering,
used by `sorted`. -/
def strLeAux : List Char → List Char → Bool
  | [], _ => true
  | _ :: _, [] => false
  | a :: as, b :: bs =>
    if charLt a b then true else if charLt b a then false else strLeAux as bs

def strLe (a b : String) : Bool := strLeAux a.data b.data

def insertSorted (a : String) : List String → List String
  | [] => [a]
  | b :: l => if strLe a b then a :: b :: l else b :: insertSorted a l

/-- Ascending sort of a string list (Python's `sorted`), as an insertion
sort over the code-point order. -/
def sortStrings (l : List String) : List String := l.foldr insertSorted []

/-- `news_ids = sorted(list(set(...)))` (lines 54–57): the distinct news
ids of the windowed interactions, sorted ascending. -/
def itemIds (ints : List Interaction) : List String :=
  sortStrings (ints.foldl (fun l i => insertOnce l i.news_id) [])

/-- One iteration of the matrix-filling loop (lines 78–105): skip the
interaction when its user or item is outside the index maps, otherwise
update the single cell with `max(old, weight)`.  The matrix is embedded
as a function from (user id, item id) to the cell value; cells outside
the index ranges stay 0 and are never read. -/
def fillStep (users items : List String) (m : String → String → ℚ)
    (i : Interaction) : String → String → ℚ :=
  if i.user_id ∈ users ∧ i.news_id ∈ items then
    fun u n =>
      if u = i.user_id ∧ n = i.news_id then max (m u n) (interactionWeight i) else m u n
  else m

/-- `build_user_item_matrix(days, min_interactions)` (lines 24–107), from
the windowed interaction list: the active users, the sorted item ids, and
the filled matrix.  The early returns for "no interactions" and "no
active users" both yield empty index lists, which is what this embedding
produces as well (with an all-zero cell function). -/
def build_user_item_matrix (ints : List Interaction) (minInteractions : Nat) :
    List String × List String × (String → String → ℚ) :=
  let users := activeUsers ints minInteractions
  let items := itemIds ints
  (users, items, ints.foldl (fillStep users items) (fun _ _ => 0))

/-- The matrix cell for user `u` and item `n`. -/
def matrixCell (ints : List Interaction) (minInteractions : Nat) (u n : String) : ℚ :=
  (build_user_item_matrix ints minInteractions).2.2 u n

/-- The interactions of the windowed list that target cell `(u, n)`. -/
def cellInteractions (ints : List Interaction) (u n : String) : List Interaction :=
  ints.filter (fun i => i.user_id = u ∧ i.news_id = n)

/-- The per-interaction score computed by the
`/api/v1/interactions/detail` endpoint (`record_detailed_interaction`,
main.py lines 573–601) and stored in the document: base score by type
(default 1.0, with no `comment`/`save` case), dwell scaling, then
scroll-depth scaling.  Python's `if dwell_time_seconds:` / `if
scroll_depth_percent:` treat 0 as falsy; since 0 clears every threshold
test anyway, matching on presence is equivalent. -/
def interaction_score (t : String) (dwell scroll : Option ℚ) : ℚ :=
  let s : ℚ :=
    if t = "view" then 1/2 else if t = "click" then 1 else if t = "read" then 2
    else if t = "like" then 3 else if t = "share" then 4 else 1
  let s : ℚ :=
    match dwell with
    | none => s
    | some d => if d > 300 then s * 2 else if d > 120 then s * (3/2)
                else if d > 60 then s * (6/5) else s
  match scroll with
  | none => s
  | some p => if p > 80 then s * (3/2) else if p > 50 then s * (6/5) else s

section MatrixLemmas

lemma mem_insertOnce {l : List String} {u x : String} :
    x ∈ insertOnce l u ↔ x ∈ l ∨ x = u := by
  unfold insertOnce
  split
  · constructor
    · exact Or.inl
    · rintro (h | rfl) <;> [exact h; assumption]
  · simp [or_comm]

lemma mem_foldl_insertOnce (f : Interaction → String) :
    ∀ (ints : List Interaction) (acc : List String) (x : String),
      x ∈ ints.foldl (fun l i => insertOnce l (f i)) acc ↔
        x ∈ acc ∨ ∃ i ∈ ints, f i = x := by
  intro ints
  induction ints with
  | nil => simp
  | cons i rest ih =>
    intro acc x
    simp only [List.foldl_cons, ih, mem_insertOnce, List.mem_cons]
    constructor
    · rintro ((h | rfl) | ⟨j, hj, rfl⟩)
      · exact Or.inl h
      · exact Or.inr ⟨i, Or.inl rfl, rfl⟩
      · exact Or.inr ⟨j, Or.inr hj, rfl⟩
    · rintro (h | ⟨j, (rfl | hj), rfl⟩)
      · exact Or.inl (Or.inl h)
      · exact Or.inl (Or.inr rfl)
      · exact Or.inr ⟨j, hj, rfl⟩

lemma mem_insertSorted {a x : String} : ∀ {l : List String},
    x ∈ insertSorted a l ↔ x = a ∨ x ∈ l := by
  intro l
  induction l with
  | nil => simp [insertSorted]
  | cons b l ih =>
    unfold insertSorted
    split
    · simp
    · rw [List.mem_cons, List.mem_cons, ih]
      tauto

lemma mem_sortStrings {x : String} : ∀ {l : List String},
    x ∈ sortStrings l ↔ x ∈ l := by
  intro l
  induction l with
  | nil => simp [sortStrings]
  | cons b l ih =>
    show x ∈ insertSorted b (sortStrings l) ↔ _
    rw [mem_insertSorted, ih, List.mem_cons]

lemma mem_itemIds {ints : List Interaction} {n : String}
    (h : ∃ i ∈ ints, i.news_id = n) : n ∈ itemIds ints := by
  unfold itemIds
  rw [mem_sortStrings]
  exact (mem_foldl_insertOnce (fun i => i.news_id) ints [] n).mpr (Or.inr h)

/-- Evaluating the matrix-filling fold at one cell: given that `u` and `n`
are inside the index maps, the cell accumulates `max` of the weights of
exactly the interactions targeting `(u, n)`. -/
lemma foldl_fillStep_cell (users items : List String) {u n : String}
    (hu : u ∈ users) (hn : n ∈ items) :
    ∀ (ints : List Interaction) (m : String → String → ℚ),
      (ints.foldl (fillStep users items) m) u n =
        (cellInteractions ints u n).foldl (fun a i => max a (interactionWeight i)) (m u n) := by
  intro ints
  induction ints with
  | nil => intro m; simp [cellInteractions]
  | cons i rest ih =>
    intro m
    simp only [List.foldl_cons, ih]
    by_cases hmatch : i.user_id = u ∧ i.news_id = n
    · have hcell : cellInteractions (i :: rest) u n = i :: cellInteractions rest u n := by
        simp [cellInteractions, hmatch.1, hmatch.2]
      have hstep : fillStep users items m i u n = max (m u n) (interactionWeight i) := by
        unfold fillStep
        rw [if_pos ⟨hmatch.1 ▸ hu, hmatch.2 ▸ hn⟩]
        simp [hmatch.1.symm, hmatch.2.symm]
      rw [hcell, List.foldl_cons, hstep]
    · have hcell : cellInteractions (i :: rest) u n = cellInteractions rest u n := by
        simp only [cellInteractions, List.filter_cons]
        rw [if_neg (by simpa using hmatch)]
      have hstep : fillStep users items m i u n = m u n := by
        unfold fillStep
        split
        · have : ¬(u = i.user_id ∧ n = i.news_id) := by
            intro ⟨h1, h2⟩; exact hmatch ⟨h1.symm, h2.symm⟩
          simp [this]
        · rfl
      rw [hcell, hstep]

lemma baseWeight_pos (i : Interaction) : 0 < baseWeight i := by
  unfold baseWeight interaction_weights
  simp only [List.lookup]
  repeat' split
  all_goals simp_all

lemma one_le_dwellMultiplier (i : Interaction) : 1 ≤ dwellMultiplier i := by
  unfold dwellMultiplier
  rcases i.dwell_time_seconds with _ | d
  · norm_num
  · simp only
    split_ifs <;> norm_num

lemma interactionWeight_pos (i : Interaction) : 0 < interactionWeight i := by
  have h1 := baseWeight_pos i
  have h2 := one_le_dwellMultiplier i
  unfold interactionWeight
  nlinarith

lemma le_foldl_max : ∀ (l : List ℚ) (a : ℚ), a ≤ l.foldl max a := by
  intro l
  induction l with
  | nil => intro a; simp
  | cons x l ih =>
    intro a
    calc a ≤ max a x := le_max_left a x
    _ ≤ (x :: l).foldl max a := by simpa using ih (max a x)

lemma mem_le_foldl_max : ∀ (l : List ℚ) (a x : ℚ), x ∈ l → x ≤ l.foldl max a := by
  intro l
  induction l with
  | nil => intro a x h; simp at h
  | cons y l ih =>
    intro a x h
    rcases List.mem_cons.mp h with rfl | h
    · calc x ≤ max a x := le_max_right a x
      _ ≤ l.foldl max (max a x) := le_foldl_max l (max a x)
      _ = (x :: l).foldl max a := by simp
    · simpa using ih (max a y) x h

lemma foldl_max_eq_or_mem : ∀ (l : List ℚ) (a : ℚ), l.foldl max a = a ∨ l.foldl max a ∈ l := by
  intro l
  induction l with
  | nil => intro a; simp
  | cons x l ih =>
    intro a
    rcases ih (max a x) with h | h
    · rw [List.foldl_cons, h]
      rcases max_choice a x with h1 | h1
      · exact Or.inl h1
      · rw [h1]; exact Or.inr (List.mem_cons_self x l)
    · exact Or.inr (List.mem_cons_of_mem x (by simpa using h))

end MatrixLemmas

/-- The characterization of one matrix cell as a `max`-fold over the
weights of the interactions targeting it. -/
lemma matrixCell_eq_foldl (ints : List Interaction) (minN : Nat) (u n : String)
    (hu : u ∈ activeUsers ints minN) (hn : n ∈ itemIds ints) :
    matrixCell ints minN u n =
      ((cellInteractions ints u n).map interactionWeight).foldl max 0 := by
  unfold matrixCell build_user_item_matrix
  simp only
  rw [foldl_fillStep_cell (activeUsers ints minN) (itemIds ints) hu hn ints (fun _ _ => 0),
    ← List.foldl_map]

lemma cellInteractions_sub {ints : List Interaction} {u n : String} {i : Interaction}
    (h : i ∈ cellInteractions ints u n) :
    i ∈ ints ∧ i.user_id = u ∧ i.news_id = n := by
  have := List.mem_filter.mp h
  refine ⟨this.1, ?_⟩
  simpa using this.2

/-- C1: for every (user, item) pair with at least one qualifying
interaction in the window (the user passed the activity filter), the
matrix cell built by `build_user_item_matrix` equals the maximum of the
weighted scores of that user's interactions with that item: it is one of
those scores and an upper bound of all of them (so in particular it is
never their sum). -/
theorem C1_matrix_cell_is_max_of_weights (ints : List Interaction) (minN : Nat)
    (u n : String) (hu : u ∈ activeUsers ints minN)
    (hne : cellInteractions ints u n ≠ []) :
    matrixCell ints minN u n ∈ (cellInteractions ints u n).map interactionWeight ∧
      ∀ w ∈ (cellInteractions ints u n).map interactionWeight,
        w ≤ matrixCell ints minN u n := by
  obtain ⟨i, hi⟩ := List.exists_mem_of_ne_nil _ hne
  obtain ⟨hints, _, hin⟩ := cellInteractions_sub hi
  have hn : n ∈ itemIds ints := mem_itemIds ⟨i, hints, hin⟩
  rw [matrixCell_eq_foldl ints minN u n hu hn]
  set l := (cellInteractions ints u n).map interactionWeight with hl
  have hpos : ∀ x ∈ l, 0 < x := by
    intro x hx
    obtain ⟨j, _, rfl⟩ := List.mem_map.mp hx
    exact interactionWeight_pos j
  constructor
  · rcases foldl_max_eq_or_mem l 0 with h | h
    · exfalso
      have hwl : interactionWeight i ∈ l := List.mem_map_of_mem interactionWeight hi
      have := mem_le_foldl_max l 0 _ hwl
      rw [h] at this
      exact absurd this (not_le.mpr (hpos _ hwl))
    · exact h
  · exact fun w hw => mem_le_foldl_max l 0 w hw

/-- Witness for C1 at a one-interaction log with `min_interactions = 1`. -/
theorem C1_matrix_cell_is_max_of_weights_witness :
    matrixCell [⟨"u", "n", some "click", none, none⟩] 1 "u" "n" ∈
        (cellInteractions [⟨"u", "n", some "click", none, none⟩] "u" "n").map
          interactionWeight ∧
      ∀ w ∈ (cellInteractions [⟨"u", "n", some "click", none, none⟩] "u" "n").map
          interactionWeight,
        w ≤ matrixCell [⟨"u", "n", some "click", none, none⟩] 1 "u" "n" :=
  C1_matrix_cell_is_max_of_weights [⟨"u", "n", some "click", none, none⟩] 1 "u" "n"
    (by decide) (by decide)

/-- C5 counterexample: the claim says an interaction of type `bookmark`
contributes base weight 2.5, but `interaction_weights` has no
`"bookmark"` key (its key is `"save"`), so a `bookmark` interaction gets
the default base weight 1.0. -/
theorem C5_counterexample_bookmark_weight :
    baseWeight ⟨"u", "n", some "bookmark", none, none⟩ = 1 ∧
      baseWeight ⟨"u", "n", some "bookmark", none, none⟩ ≠ 5/2 := by
  have hb : baseWeight ⟨"u", "n", some "bookmark", none, none⟩ = 1 := by
    simp [baseWeight, interaction_weights, List.lookup]
  exact ⟨hb, by rw [hb]; norm_num⟩

/-- C5 (amended): the per-type base weight table is view=0.5, click=1.0,
read=2.0, like=3.0, share=4.0, comment=3.0, **save**=2.5; the literal
type string `bookmark` is not in the table and falls back to the default
base weight 1.0. -/
theorem C5_amended_weight_table :
    baseWeight ⟨"u", "n", some "view", none, none⟩ = 1/2 ∧
      baseWeight ⟨"u", "n", some "click", none, none⟩ = 1 ∧
      baseWeight ⟨"u", "n", some "read", none, none⟩ = 2 ∧
      baseWeight ⟨"u", "n", some "like", none, none⟩ = 3 ∧
      baseWeight ⟨"u", "n", some "share", none, none⟩ = 4 ∧
      baseWeight ⟨"u", "n", some "comment", none, none⟩ = 3 ∧
      baseWeight ⟨"u", "n", some "save", none, none⟩ = 5/2 ∧
      baseWeight ⟨"u", "n", some "bookmark", none, none⟩ = 1 := by
  refine ⟨?_, ?_, ?_, ?_, ?_, ?_, ?_, ?_⟩ <;>
    simp [baseWeight, interaction_weights, List.lookup]

/-- A three-interaction log for one qualifying user (`min_interactions =
3`): a click on item `n` with scroll depth 90% and no dwell time, plus
two views of other items. -/
def scrollInts : List Interaction :=
  [⟨"u", "n", some "click", none, some 90⟩,
   ⟨"u", "m1", some "view", none, none⟩,
   ⟨"u", "m2", some "view", none, none⟩]

/-- C6 counterexample: for a click (base 1.0) with no dwell time and
scroll depth 90%, the claim predicts cell value 1.0 × 1.0 × 1.5 = 1.5,
but `build_user_item_matrix` never reads `scroll_depth_percent` and the
cell is 1.0. -/
theorem C6_counterexample_scroll_ignored :
    matrixCell scrollInts 3 "u" "n" = 1 ∧
      matrixCell scrollInts 3 "u" "n" ≠ 1 * 1 * (3/2) := by
  have hu : "u" ∈ activeUsers scrollInts 3 := by decide
  have hn : "n" ∈ itemIds scrollInts := by decide
  have h := matrixCell_eq_foldl scrollInts 3 "u" "n" hu hn
  have hc : cellInteractions scrollInts "u" "n" =
      [⟨"u", "n", some "click", none, some 90⟩] := by
    simp [cellInteractions, scrollInts]
  have hw : interactionWeight ⟨"u", "n", some "click", none, some 90⟩ = 1 := by
    simp [interactionWeight, baseWeight, dwellMultiplier, interaction_weights, List.lookup]
  have hval : matrixCell scrollInts 3 "u" "n" = 1 := by
    rw [h, hc]
    norm_num [hw, max_def]
  exact ⟨hval, by rw [hval]; norm_num⟩

/-- C6 (amended): a matrix cell equals `base_weight × dwell_multiplier`
maximised over qualifying interactions, with no scroll factor: the
per-interaction weight used by the builder is independent of
`scroll_depth_percent`.  The ×1.5 / ×1.2 scroll-depth multiplier exists
only in `record_detailed_interaction`'s stored `interaction_score`
(main.py), which the matrix builder never reads. -/
theorem C6_amended_no_scroll_in_builder :
    (∀ (ints : List Interaction) (minN : Nat) (u n : String),
        u ∈ activeUsers ints minN → n ∈ itemIds ints →
          matrixCell ints minN u n =
            ((cellInteractions ints u n).map
              (fun i => baseWeight i * dwellMultiplier i)).foldl max 0) ∧
      (∀ (i : Interaction) (s : Option ℚ),
        interactionWeight { i with scroll_depth_percent := s } =
          baseWeight i * dwellMultiplier i) ∧
      (∀ (t : String) (d : Option ℚ) (p : ℚ), 80 < p →
        interaction_score t d (some p) = interaction_score t d none * (3/2)) := by
  refine ⟨?_, ?_, ?_⟩
  · intro ints minN u n hu hn
    exact matrixCell_eq_foldl ints minN u n hu hn
  · intro i s
    rfl
  · intro t d p hp
    unfold interaction_score
    simp only
    rw [if_pos hp]

/-- Witness for C6 (amended) at the `scrollInts` log. -/
theorem C6_amended_no_scroll_in_builder_witness :
    matrixCell scrollInts 3 "u" "n" =
        ((cellInteractions scrollInts "u" "n").map
          (fun i => baseWeight i * dwellMultiplier i)).foldl max 0 ∧
      interaction_score "click" none (some 90) =
        interaction_score "click" none none * (3/2) :=
  ⟨C6_amended_no_scroll_in_builder.1 scrollInts 3 "u" "n" (by decide) (by decide),
   C6_amended_no_scroll_in_builder.2.2 "click" none 90 (by norm_num)⟩

/-- The shape-level control flow of `apply_svd` (collaborative_filtering.py
lines 109–139): for a `rows × cols` matrix and requested factor count
`k`, the number of latent factors actually passed to `svds`, or `none`
when the guard `matrix.size == 0 or min(matrix.shape) < 2` (line 120)
returns the empty result.  The surrounding `try` turns numeric SVD
failures into the same empty result, so `none` is exactly the spec's
`Unavailable`. -/
def apply_svd_factors (rows cols k : Nat) : Option Nat :=
  if rows * cols = 0 ∨ min rows cols < 2 then none
  else some (min k (min rows cols - 1))

/-- The `k` computed by `get_recommendations_for_user` at line 192:
`min(20, min(matrix.shape) - 1) if min(matrix.shape) > 1 else 1`. -/
def recommend_k (rows cols : Nat) : Nat :=
  if 1 < min rows cols then min 20 (min rows cols - 1) else 1

/-- The factor count the recommendation path requests from the SVD. -/
def svdRequest (rows cols : Nat) : Option Nat :=
  apply_svd_factors rows cols (recommend_k rows cols)

/-- C2: with `m = min(rows, cols)`: if `m < 2`, fitting returns the
empty (Unavailable) result; otherwise the SVD is requested with exactly
`min(20, m − 1)` factors, and any requested factor count is at most
`m − 1`. -/
theorem C2_svd_rank_invariant (rows cols : Nat) :
    (min rows cols < 2 → svdRequest rows cols = none) ∧
      (2 ≤ min rows cols →
        svdRequest rows cols = some (min 20 (min rows cols - 1))) ∧
      (∀ j, svdRequest rows cols = some j → j ≤ min rows cols - 1) := by
  unfold svdRequest apply_svd_factors recommend_k
  refine ⟨fun h => ?_, fun h => ?_, fun j hj => ?_⟩
  · rw [if_pos (Or.inr h)]
  · have hne : ¬(rows * cols = 0 ∨ min rows cols < 2) := by
      rintro (h0 | h2)
      · rcases Nat.mul_eq_zero.mp h0 with rfl | rfl <;> omega
      · omega
    rw [if_neg hne, if_pos (by omega : 1 < min rows cols)]
    congr 1
    omega
  · by_cases hc : rows * cols = 0 ∨ min rows cols < 2
    · rw [if_pos hc] at hj
      exact absurd hj (by simp)
    · rw [if_neg hc] at hj
      have := Option.some.inj hj
      omega

/-- Witness for C2 at a 5×30 matrix (m = 5, k = 4) and a 1×30 matrix
(m = 1, Unavailable). -/
theorem C2_svd_rank_invariant_witness :
    svdRequest 5 30 = some 4 ∧ svdRequest 1 30 = none :=
  ⟨by have h := (C2_svd_rank_invariant 5 30).2.1 (by norm_num)
      simpa using h,
   (C2_svd_rank_invariant 1 30).1 (by norm_num)⟩

/-- `np.diag(sigma)` (line 157). -/
def diagM {k : Nat} (σ : Fin k → ℚ) : Fin k → Fin k → ℚ :=
  fun a b => if a = b then σ a else 0

/-- `np.dot` for dense 2-D arrays. -/
def matMul {a b c : Nat} (M : Fin a → Fin b → ℚ) (N : Fin b → Fin c → ℚ) :
    Fin a → Fin c → ℚ :=
  fun i j => ∑ x, M i x * N x j

/-- `predict_ratings` (lines 141–168): `pred = U · diag(Σ) · Vᵀ`, plus
the per-user mean column vector broadcast over items, negatives clamped
to 0 (`pred_ratings[pred_ratings < 0] = 0`).  The early return for
size-0 inputs corresponds to a zero dimension, where the function below
is the empty matrix as well. -/
def predict_ratings {r k c : Nat} (u : Fin r → Fin k → ℚ) (σ : Fin k → ℚ)
    (vt : Fin k → Fin c → ℚ) (user_means : Fin r → ℚ) : Fin r → Fin c → ℚ :=
  fun i j =>
    let withMean := matMul (matMul u (diagM σ)) vt i j + user_means i
    if withMean < 0 then 0 else withMean

/-- C8: every entry of the prediction matrix equals
`U · diag(Σ) · Vᵀ + row_mean` with negatives clamped to zero — i.e., the
`max` of 0 and `∑ x, U i x * Σ x * Vᵀ x j + mean i` — and every returned
predicted score is non-negative. -/
theorem C8_prediction_clamped {r k c : Nat} (u : Fin r → Fin k → ℚ)
    (σ : Fin k → ℚ) (vt : Fin k → Fin c → ℚ) (user_means : Fin r → ℚ) :
    (∀ i j, predict_ratings u σ vt user_means i j =
        max 0 ((∑ x, u i x * σ x * vt x j) + user_means i)) ∧
      (∀ i j, 0 ≤ predict_ratings u σ vt user_means i j) := by
  have hrow : ∀ (i : Fin r) (x : Fin k), matMul u (diagM σ) i x = u i x * σ x := by
    intro i x
    unfold matMul diagM
    rw [Finset.sum_eq_single x]
    · simp
    · intro b _ hb
      simp [hb]
    · intro h
      exact absurd (Finset.mem_univ x) h
  have hpred : ∀ (i : Fin r) (j : Fin c),
      matMul (matMul u (diagM σ)) vt i j = ∑ x, u i x * σ x * vt x j := by
    intro i j
    calc matMul (matMul u (diagM σ)) vt i j
        = ∑ x, matMul u (diagM σ) i x * vt x j := rfl
      _ = ∑ x, u i x * σ x * vt x j :=
          Finset.sum_congr rfl fun x _ => by rw [hrow i x]
  constructor
  · intro i j
    unfold predict_ratings
    simp only [hpred]
    rcases lt_or_le ((∑ x, u i x * σ x * vt x j) + user_means i) 0 with h | h
    · rw [if_pos h, max_eq_left h.le]
    · rw [if_neg (not_lt.mpr h), max_eq_right h]
  · intro i j
    unfold predict_ratings
    simp only
    split
    · exact le_refl 0
    · next h => exact not_lt.mp h

/-- Stable insertion of a scored item into a key-descending list: the
new element goes after every entry with a strictly greater key and
before the rest. -/
def insertScoreDesc {α : Type} (key : α → ℚ) (p : α) : List α → List α
  | [] => [p]
  | q :: qs => if key q > key p then q :: insertScoreDesc key p qs else p :: q :: qs

/-- Python's stable `sort(key=..., reverse=True)` / `sorted(...,
reverse=True)`: a stable descending sort by a rational key.  Stable
sorted output is unique, so this insertion sort computes exactly what
CPython's stable sort returns. -/
def sortScoresDesc {α : Type} (key : α → ℚ) (l : List α) : List α :=
  l.foldr (insertScoreDesc key) []

/-- `item_scores` of `get_recommendations_for_user` (lines 208–215):
the enumeration of the user's predicted-rating row, skipping every item
index whose original matrix entry is positive. -/
def itemScores (numItems : Nat) (matrix_row user_ratings : Nat → ℚ) :
    List (Nat × ℚ) :=
  ((List.range numItems).map (fun i => (i, user_ratings i))).filter
    (fun p => !(matrix_row p.1 > 0 : Bool))

/-- The sorted and truncated `top_items` (lines 216–219). -/
def topItems (numItems : Nat) (matrix_row user_ratings : Nat → ℚ)
    (limit : Nat) : List (Nat × ℚ) :=
  (sortScoresDesc Prod.snd (itemScores numItems matrix_row user_ratings)).take limit

/-- The tail of `get_recommendations_for_user` (lines 208–224): rank the
items the user has not interacted with by predicted score and map the
winning indices back to news ids. -/
def rankForUser (news_ids : List String) (matrix_row user_ratings : Nat → ℚ)
    (limit : Nat) : List String :=
  (topItems news_ids.length matrix_row user_ratings limit).map
    (fun p => news_ids.getD p.1 "")

section RankingLemmas

variable {α : Type}

lemma mem_insertScoreDesc {key : α → ℚ} {x y : α} : ∀ {m : List α},
    y ∈ insertScoreDesc key x m ↔ y = x ∨ y ∈ m := by
  intro m
  induction m with
  | nil => simp [insertScoreDesc]
  | cons q qs ih =>
    unfold insertScoreDesc
    split
    · rw [List.mem_cons, ih, List.mem_cons]
      tauto
    · simp

lemma mem_sortScoresDesc {key : α → ℚ} {y : α} : ∀ {l : List α},
    y ∈ sortScoresDesc key l ↔ y ∈ l := by
  intro l
  induction l with
  | nil => simp [sortScoresDesc]
  | cons x l ih =>
    show y ∈ insertScoreDesc key x (sortScoresDesc key l) ↔ _
    rw [mem_insertScoreDesc, ih, List.mem_cons]

lemma insertScoreDesc_perm {key : α → ℚ} {x : α} :
    ∀ (m : List α), List.Perm (insertScoreDesc key x m) (x :: m) := by
  intro m
  induction m with
  | nil => exact List.Perm.refl _
  | cons q qs ih =>
    unfold insertScoreDesc
    split
    · exact List.Perm.trans (List.Perm.cons q ih) (List.Perm.swap x q qs)
    · exact List.Perm.refl _

lemma sortScoresDesc_perm {key : α → ℚ} :
    ∀ (l : List α), List.Perm (sortScoresDesc key l) l := by
  intro l
  induction l with
  | nil => exact List.Perm.refl _
  | cons x l ih =>
    exact List.Perm.trans (insertScoreDesc_perm (sortScoresDesc key l))
      (List.Perm.cons x ih)

/-- The ordering produced by the stable descending sort with key `key`
and original-order relation `T`: strictly descending key, with ties in
the original relative order. -/
def KeyOrder (key : α → ℚ) (T : α → α → Prop) (p q : α) : Prop :=
  key q < key p ∨ (key p = key q ∧ T p q)

/-- `RankOrder` for `item_scores` pairs: strictly descending score, with
ties in ascending index order. -/
def RankOrder (p q : Nat × ℚ) : Prop :=
  q.2 < p.2 ∨ (p.2 = q.2 ∧ p.1 < q.1)

lemma keyOrder_scores_le {key : α → ℚ} {T : α → α → Prop} {m : List α} {q : α}
    (hp : List.Pairwise (KeyOrder key T) (q :: m)) :
    ∀ r ∈ m, key r ≤ key q := by
  intro r hr
  rcases (List.pairwise_cons.mp hp).1 r hr with h | ⟨h, _⟩
  · exact h.le
  · exact h.ge

lemma insertScoreDesc_pairwise {key : α → ℚ} {T : α → α → Prop} {x : α} :
    ∀ {m : List α},
    List.Pairwise (KeyOrder key T) m → (∀ r ∈ m, T x r) →
      List.Pairwise (KeyOrder key T) (insertScoreDesc key x m) := by
  intro m
  induction m with
  | nil => intro _ _; simp [insertScoreDesc, List.pairwise_singleton]
  | cons q qs ih =>
    intro hp hidx
    have hq := List.pairwise_cons.mp hp
    unfold insertScoreDesc
    split
    · next hgt =>
      refine List.pairwise_cons.mpr
        ⟨?_, ih hq.2 (fun r hr => hidx r (List.mem_cons_of_mem q hr))⟩
      intro r hr
      rcases mem_insertScoreDesc.mp hr with rfl | hr
      · exact Or.inl hgt
      · exact hq.1 r hr
    · next hle =>
      have hxq : key q ≤ key x := not_lt.mp hle
      refine List.pairwise_cons.mpr ⟨?_, hp⟩
      intro r hr
      rcases List.mem_cons.mp hr with rfl | hr
      · rcases lt_or_eq_of_le hxq with h | h
        · exact Or.inl h
        · exact Or.inr ⟨h.symm, hidx r (List.mem_cons_self _ _)⟩
      · have hr2 : key r ≤ key q := keyOrder_scores_le hp r hr
        rcases lt_or_eq_of_le (hr2.trans hxq) with h | h
        · exact Or.inl h
        · exact Or.inr ⟨h.symm, hidx r (List.mem_cons_of_mem q hr)⟩

lemma sortScoresDesc_pairwise {key : α → ℚ} {T : α → α → Prop} :
    ∀ {l : List α}, List.Pairwise T l →
      List.Pairwise (KeyOrder key T) (sortScoresDesc key l) := by
  intro l
  induction l with
  | nil => intro _; simp [sortScoresDesc]
  | cons x l ih =>
    intro hp
    have hx := List.pairwise_cons.mp hp
    show List.Pairwise (KeyOrder key T) (insertScoreDesc key x (sortScoresDesc key l))
    refine insertScoreDesc_pairwise (ih hx.2) ?_
    intro r hr
    exact hx.1 r (mem_sortScoresDesc.mp hr)

lemma itemScores_index_pairwise (numItems : Nat) (mr ur : Nat → ℚ) :
    List.Pairwise (fun p q : Nat × ℚ => p.1 < q.1) (itemScores numItems mr ur) := by
  unfold itemScores
  exact List.Pairwise.filter _
    ((List.pairwise_lt_range numItems).map _ (fun a b h => h))

end RankingLemmas

/-- C7 (amended): the ranking of `get_recommendations_for_user` excludes
every item whose original matrix entry for the user is positive
(nonzero, since cells are maxima of positive weights or zero), and
orders the remaining items by predicted score descending with ties in
ascending item-index order — the insertion order of the sorted news-id
list, produced by Python's stable sort.  Recency is not an input of the
ranking and is never consulted. -/
theorem C7_amended_rank_exclusion_and_stable_ties (news_ids : List String)
    (matrix_row user_ratings : Nat → ℚ) (limit : Nat) :
    (∀ p ∈ topItems news_ids.length matrix_row user_ratings limit,
        ¬ matrix_row p.1 > 0) ∧
      List.Pairwise RankOrder
        (topItems news_ids.length matrix_row user_ratings limit) ∧
      rankForUser news_ids matrix_row user_ratings limit =
        (topItems news_ids.length matrix_row user_ratings limit).map
          (fun p => news_ids.getD p.1 "") := by
  refine ⟨?_, ?_, rfl⟩
  · intro p hp
    have hmem : p ∈ sortScoresDesc Prod.snd
        (itemScores news_ids.length matrix_row user_ratings) :=
      List.take_subset _ _ hp
    have hfil := mem_sortScoresDesc.mp hmem
    have := List.of_mem_filter hfil
    simpa using this
  · have h := @sortScoresDesc_pairwise (Nat × ℚ) Prod.snd
      (fun p q : Nat × ℚ => p.1 < q.1)
      (itemScores news_ids.length matrix_row user_ratings)
      (itemScores_index_pairwise news_ids.length matrix_row user_ratings)
    exact List.Pairwise.take (h.imp (fun hpq => hpq))

/-- Witness for C7 (amended) at a two-item matrix row. -/
theorem C7_amended_rank_exclusion_and_stable_ties_witness :
    (∀ p ∈ topItems (["a", "b"] : List String).length (fun _ => 0) (fun _ => 5) 2,
        ¬ (fun _ : Nat => (0 : ℚ)) p.1 > 0) ∧
      List.Pairwise RankOrder
        (topItems (["a", "b"] : List String).length (fun _ => 0) (fun _ => 5) 2) ∧
      rankForUser ["a", "b"] (fun _ => 0) (fun _ => 5) 2 =
        (topItems (["a", "b"] : List String).length (fun _ => 0) (fun _ => 5) 2).map
          (fun p => (["a", "b"] : List String).getD p.1 "") :=
  C7_amended_rank_exclusion_and_stable_ties ["a", "b"] (fun _ => 0) (fun _ => 5) 2

/-- C7 counterexample: two never-interacted items `"a"` (index 0) and
`"b"` (index 1) with equal predicted score 5.  Taking `"b"` to be the
newer item, the claim's recency tie-break demands `["b", "a"]`, but the
code's stable sort leaves ties in index (insertion) order and returns
`["a", "b"]`. -/
theorem C7_counterexample_tiebreak_is_insertion_order :
    rankForUser ["a", "b"] (fun _ => 0) (fun _ => 5) 2 = ["a", "b"] ∧
      (["a", "b"] : List String) ≠ ["b", "a"] := by
  constructor
  · norm_num [rankForUser, topItems, itemScores, sortScoresDesc, insertScoreDesc,
      List.range_succ]
  · decide

/-- One candidate news item as seen by the recommendation passes: the
id and category list of the loosely-typed news dict. -/
structure NewsItem where
  id : String
  categories : List String
deriving Repr, DecidableEq

/-- `main_category = categories[0]`, with `"일반"` (general) substituted
when the category list is empty or missing (langchain_service.py lines
1861–1868). -/
def primaryCategory (n : NewsItem) : String :=
  n.categories.headD "일반"

/-- `recommendations[nid].get("score", 0)`: the score stored in the
recommendations dict, modelled as an association list. -/
def recScore (recs : List (String × ℚ)) (nid : String) : ℚ :=
  (recs.lookup nid).getD 0

/-- `category_news[cat]` (langchain_service.py lines 1855–1871): the
ids of scored candidates whose primary category is `cat`, in news-list
order; entries with an empty id or absent from the recommendations dict
are skipped. -/
def categoryNews (news_list : List NewsItem) (recs : List (String × ℚ))
    (cat : String) : List String :=
  (news_list.filter
    (fun n => n.id ≠ "" ∧ (recs.lookup n.id).isSome ∧ primaryCategory n = cat)).map
    (fun n => n.id)

/-- The distinct primary categories in first-appearance order: the key
order of the `category_news` dict. -/
def categoriesOf (news_list : List NewsItem) (recs : List (String × ℚ)) :
    List String :=
  (news_list.filter (fun n => n.id ≠ "" ∧ (recs.lookup n.id).isSome)).foldl
    (fun l n => insertOnce l (primaryCategory n)) []

/-- Processing of one category (lines 1873–1890): when the category
holds more than `cap` ids, sort them by current score descending
(Python's `sorted` is stable) and multiply the scores of the ids at
positions ≥ cap by 0.7 (`diversity_adjusted`); the ids themselves are
kept. -/
def demoteCat (cap : Nat) (sc : String → ℚ) (ids : List String) : String → ℚ :=
  if cap < ids.length then
    fun nid => if nid ∈ (sortScoresDesc sc ids).drop cap then sc nid * (7/10) else sc nid
  else sc

/-- The diversity pass of `get_recommendations` (lines 1853–1890): fold
the per-category demotion over all categories, starting from the scores
of the recommendations dict, with
`max_per_category = max(2, len(news_list) // 3)`. -/
def diversityAdjust (news_list : List NewsItem) (recs : List (String × ℚ)) :
    String → ℚ :=
  (categoriesOf news_list recs).foldl
    (fun sc cat => demoteCat (max 2 (news_list.length / 3)) sc
      (categoryNews news_list recs cat))
    (recScore recs)

section DiversityLemmas

lemma demoteCat_eq_or (cap : Nat) (sc : String → ℚ) (ids : List String)
    (nid : String) :
    demoteCat cap sc ids nid = sc nid ∨ demoteCat cap sc ids nid = sc nid * (7/10) := by
  unfold demoteCat
  split
  · simp only
    split
    · exact Or.inr rfl
    · exact Or.inl rfl
  · exact Or.inl rfl

lemma demoteCat_not_mem {cap : Nat} {sc : String → ℚ} {ids : List String}
    {nid : String} (h : nid ∉ ids) : demoteCat cap sc ids nid = sc nid := by
  unfold demoteCat
  split
  · simp only
    rw [if_neg]
    intro hmem
    exact h (mem_sortScoresDesc.mp (List.drop_subset _ _ hmem))
  · rfl

lemma foldl_demote_untouched (cap : Nat) (catIds : String → List String)
    {nid : String} : ∀ (cats : List String) (sc : String → ℚ),
    (∀ c ∈ cats, nid ∉ catIds c) →
      (cats.foldl (fun sc cat => demoteCat cap sc (catIds cat)) sc) nid = sc nid := by
  intro cats
  induction cats with
  | nil => intro sc _; rfl
  | cons c rest ih =>
    intro sc h
    rw [List.foldl_cons, ih _ (fun d hd => h d (List.mem_cons_of_mem c hd)),
      demoteCat_not_mem (h c (List.mem_cons_self c rest))]

lemma foldl_demote_once (cap : Nat) (catIds : String → List String)
    {nid : String} : ∀ (cats : List String) (sc : String → ℚ),
    cats.Nodup →
    (∀ c ∈ cats, ∀ c' ∈ cats, nid ∈ catIds c → nid ∈ catIds c' → c = c') →
      (cats.foldl (fun sc cat => demoteCat cap sc (catIds cat)) sc) nid = sc nid ∨
        (cats.foldl (fun sc cat => demoteCat cap sc (catIds cat)) sc) nid =
          sc nid * (7/10) := by
  intro cats
  induction cats with
  | nil => intro sc _ _; exact Or.inl rfl
  | cons c rest ih =>
    intro sc hnd huniq
    rw [List.foldl_cons]
    by_cases hc : nid ∈ catIds c
    · have hrest : ∀ d ∈ rest, nid ∉ catIds d := by
        intro d hd hmem
        have : c = d := huniq c (List.mem_cons_self c rest) d
          (List.mem_cons_of_mem c hd) hc hmem
        exact (List.nodup_cons.mp hnd).1 (this ▸ hd)
      rw [foldl_demote_untouched cap catIds rest _ hrest]
      exact demoteCat_eq_or cap sc (catIds c) nid
    · have h1 := ih (demoteCat cap sc (catIds c)) (List.nodup_cons.mp hnd).2
        (fun d hd d' hd' h h' =>
          huniq d (List.mem_cons_of_mem c hd) d' (List.mem_cons_of_mem c hd') h h')
      rw [demoteCat_not_mem hc] at h1
      exact h1

lemma nodup_insertOnce {l : List String} {u : String} (h : l.Nodup) :
    (insertOnce l u).Nodup := by
  unfold insertOnce
  split
  · exact h
  · next hmem =>
    refine List.Nodup.append h (List.nodup_singleton u) ?_
    intro a ha hb
    rw [List.mem_singleton] at hb
    exact hmem (hb ▸ ha)

lemma nodup_foldl_insertOnce (f : NewsItem → String) :
    ∀ (l : List NewsItem) (acc : List String), acc.Nodup →
      (l.foldl (fun ac n => insertOnce ac (f n)) acc).Nodup := by
  intro l
  induction l with
  | nil => intro acc h; exact h
  | cons n rest ih =>
    intro acc h
    exact ih (insertOnce acc (f n)) (nodup_insertOnce h)

lemma categoriesOf_nodup (news_list : List NewsItem) (recs : List (String × ℚ)) :
    (categoriesOf news_list recs).Nodup :=
  nodup_foldl_insertOnce _ _ [] List.nodup_nil

lemma categoryNews_unique {news_list : List NewsItem} {recs : List (String × ℚ)}
    (hnd : (news_list.map (fun n => n.id)).Nodup) {nid : String} {c c' : String}
    (h : nid ∈ categoryNews news_list recs c)
    (h' : nid ∈ categoryNews news_list recs c') : c = c' := by
  obtain ⟨n, hn, hid⟩ := List.mem_map.mp h
  obtain ⟨n', hn', hid'⟩ := List.mem_map.mp h'
  have hcat := List.of_mem_filter hn
  have hcat' := List.of_mem_filter hn'
  simp only [decide_eq_true_eq, Bool.and_eq_true, decide_eq_true_eq] at hcat hcat'
  have hnn : n = n' :=
    List.inj_on_of_nodup_map hnd (List.mem_of_mem_filter hn)
      (List.mem_of_mem_filter hn') (by rw [hid, hid'])
  rw [← hcat.2.2, hnn]
  exact hcat'.2.2

end DiversityLemmas

/-- C4 (amended): the diversity pass never drops a candidate — it only
rescores: provided candidate ids are distinct, every candidate's
adjusted score is either its original score or exactly 0.7 × it (the
over-cap demotion).  Its cap is `max(2, n // 3)` for `n` the number of
candidates handed to the re-ranker; every caller passes at most `limit`
candidates, so the cap never exceeds `max(2, limit // 3)`.  The cap
only rescores the LLM bucket: it does not bound the slots a category
occupies in the final recommendation list, which the never-capped
collaborative bucket can push past `max(2, limit // 3)`. -/
theorem C4_amended_demote_never_drop (news_list : List NewsItem)
    (recs : List (String × ℚ))
    (hnd : (news_list.map (fun n => n.id)).Nodup) (nid : String) :
    (diversityAdjust news_list recs nid = recScore recs nid ∨
      diversityAdjust news_list recs nid = recScore recs nid * (7/10)) ∧
      (∀ limit : Nat, news_list.length ≤ limit →
        max 2 (news_list.length / 3) ≤ max 2 (limit / 3)) := by
  constructor
  · unfold diversityAdjust
    exact foldl_demote_once _ _ (categoriesOf news_list recs) (recScore recs)
      (categoriesOf_nodup news_list recs)
      (fun c _ c' _ h h' => categoryNews_unique hnd h h')
  · intro limit hle
    exact max_le_max le_rfl (Nat.div_le_div_right hle)

/-- The dispatch of `get_recommendations_for_user`
(collaborative_filtering.py lines 170–197): a user absent from the
matrix, or an empty SVD result — the matrix was too small, or `svds`
raised and `apply_svd` returned the empty triple — falls back to
`_get_fallback_recommendations`; otherwise the SVD ranking of
`rankForUser` is returned.  `svdAvailable` stands for the line-195 check
`u.size == 0 or sigma.size == 0 or vt.size == 0` being false. -/
def cf_user_recommendations (user_ids news_ids : List String)
    (matrix_row user_ratings : Nat → ℚ) (svdAvailable : Bool)
    (user_id : String) (limit : Nat) (fallback : List String) : List String :=
  if user_id ∈ user_ids then
    if svdAvailable then rankForUser news_ids matrix_row user_ratings limit
    else fallback
  else fallback

/-- The oracle inputs of one warm-path run of
`get_personalized_recommendations` (hybrid_recommendation.py lines
110–282): everything the method reads from the document store and from
the external services.  `allNews` is the parsed news collection
(`is_basic_info: False`) in published-date-descending order;
`userInteractionIds` are the ids of the user's interactions in
timestamp-descending order (the warm path requires at least 3);
`llmScores` is the dict `langchain_service.get_recommendations` answers
with (`none` models its `"error"` dict); `trending` is the list the
`except` handler at line 284 answers with via `get_trending_news`. -/
structure WarmInputs where
  allNews : List NewsItem
  userInteractionIds : List String
  cfIds : List String
  llmScores : Option (List (String × ℚ))
  interests : List String
  diversity_level : ℚ
  trending : List NewsItem

/-- `news_collection.find_one({"_id": nid, "is_basic_info": False})`. -/
def findNews (allNews : List NewsItem) (nid : String) : Option NewsItem :=
  allNews.find? (fun n => n.id = nid)

/-- Whether the content-based step (lines 132–150) aborts the request:
line 139 `await`s `EmbeddingService.search_similar_news`, but that
method is a plain synchronous `def` returning a list
(embedding_service.py line 569), so the `await` raises `TypeError` the
moment any of the user's 5 seed articles resolves in the parsed store;
the `except` at line 284 then answers with trending news instead.  When
no seed resolves, the loop completes without reaching the `await` and
`content_news_ids` remains the empty set. -/
def contentStepRaises (inp : WarmInputs) : Bool :=
  (inp.userInteractionIds.take 5).any (fun s => (findNews inp.allNews s).isSome)

/-- Python list slicing `l[:n]` for a possibly negative `n` (the
`llm_count` of line 153 can go negative when the collaborative bucket
overshoots the limit). -/
def pySlice {α : Type} (n : Int) (l : List α) : List α :=
  if 0 ≤ n then l.take n.toNat else l.take (l.length - n.natAbs)

/-- The candidate pool for the LLM step (lines 167–174): parsed news not
already chosen by the collaborative or content steps, most recent
first, at most `limit` of them. -/
def recentPool (inp : WarmInputs) (content : List String) (limit : Nat) :
    List NewsItem :=
  (inp.allNews.filter (fun n => n.id ∉ inp.cfIds ∧ n.id ∉ content)).take limit

/-- The LLM step of a completed run (lines 176–249), with the LLM scores
as an oracle: when the user has interests, the pool is non-empty and the
scores arrive as a clean dict, the pool entries scored by the LLM are
sorted by score (default 5) descending — Python's stable sort — and
sliced to `llm_count`; with `diversity_level > 0` and a non-empty
slice, `diversify_recommendations` is consulted, but that method
returns its `current_recommendations` argument unchanged
(langchain_service.py lines 1993 and 1996, also on its own failure), so
the replacement list re-fetches exactly the slice's own ids from the
parsed store.  All failure branches fall back to the recency slice. -/
def llmNewsList (inp : WarmInputs) (recent : List NewsItem) (llm_count : Int) :
    List NewsItem :=
  if inp.interests ≠ [] ∧ recent ≠ [] then
    match inp.llmScores with
    | some recs =>
      let llm_list := pySlice llm_count (sortScoresDesc
        (fun n => (recs.lookup n.id).getD 5)
        (recent.filter (fun n => (recs.lookup n.id).isSome)))
      if 0 < inp.diversity_level then
        if llm_list ≠ [] then
          (llm_list.map (fun n => n.id)).filterMap (findNews inp.allNews)
        else llm_list
      else llm_list
    | none => pySlice llm_count recent
  else pySlice llm_count recent

/-- The warm path of `get_personalized_recommendations` (lines 110–282).
If any seed resolves, the awaited synchronous `search_similar_news`
raises and the catch-all returns the trending list; otherwise the run
completes with `content_news_ids` empty, so the content bucket
contributes nothing and `llm_count = limit - len(cf_news_ids) - 0`: the
result is the collaborative ids resolved against the parsed store,
followed by the LLM list, truncated to `limit`. -/
def warmPath (inp : WarmInputs) (limit : Nat) : List NewsItem :=
  if contentStepRaises inp then inp.trending
  else
    (inp.cfIds.filterMap (findNews inp.allNews) ++
      llmNewsList inp (recentPool inp [] limit)
        ((limit : Int) - inp.cfIds.length)).take limit

section WarmLemmas

lemma findNews_eq_some {allNews : List NewsItem} {nid : String} {n : NewsItem}
    (h : findNews allNews nid = some n) : n ∈ allNews ∧ n.id = nid := by
  refine ⟨List.mem_of_find?_eq_some h, ?_⟩
  have := List.find?_some h
  simpa using this

lemma map_id_filterMap_findNews (allNews : List NewsItem) :
    ∀ ids : List String,
      (ids.filterMap (findNews allNews)).map (fun n => n.id) =
        ids.filter (fun nid => (findNews allNews nid).isSome) := by
  intro ids
  induction ids with
  | nil => rfl
  | cons nid rest ih =>
    rcases h : findNews allNews nid with _ | n
    · rw [List.filterMap_cons_none h, List.filter_cons_of_neg (by simp [h]), ih]
    · rw [List.filterMap_cons_some h, List.map_cons,
        List.filter_cons_of_pos (by simp [h]), ih, (findNews_eq_some h).2]

lemma pySlice_sublist {α : Type} (n : Int) (l : List α) :
    (pySlice n l).Sublist l := by
  unfold pySlice
  split
  · exact List.take_sublist _ _
  · exact List.take_sublist _ _

/-- Id-level facts about the LLM list: its ids are duplicate-free and
all drawn from the pool it was given. -/
lemma llmNewsList_ids (inp : WarmInputs) (recent : List NewsItem) (k : Int)
    (hrec : (recent.map (fun n => n.id)).Nodup) :
    ((llmNewsList inp recent k).map (fun n => n.id)).Nodup ∧
      ∀ y ∈ (llmNewsList inp recent k).map (fun n => n.id),
        y ∈ recent.map (fun n => n.id) := by
  have hA : ∀ l : List NewsItem,
      (l.map (fun n => n.id)).Sublist (recent.map (fun n => n.id)) →
        ((l.map (fun n => n.id)).Nodup ∧
          ∀ y ∈ l.map (fun n => n.id), y ∈ recent.map (fun n => n.id)) :=
    fun l h => ⟨List.Nodup.sublist h hrec, fun y hy => h.subset hy⟩
  unfold llmNewsList
  split
  · rcases hsc : inp.llmScores with _ | recs
    · simp only [hsc]
      exact hA _ ((pySlice_sublist k recent).map _)
    · simp only [hsc]
      have hperm : List.Perm
          ((sortScoresDesc (fun n => (recs.lookup n.id).getD 5)
            (recent.filter (fun n => (recs.lookup n.id).isSome))).map
              (fun n => n.id))
          ((recent.filter (fun n => (recs.lookup n.id).isSome)).map
            (fun n => n.id)) :=
        List.Perm.map _ (sortScoresDesc_perm _)
      have hfil : ((recent.filter (fun n => (recs.lookup n.id).isSome)).map
            (fun n => n.id)).Sublist (recent.map (fun n => n.id)) :=
        (List.filter_sublist recent).map _
      have hll : ((pySlice k (sortScoresDesc (fun n => (recs.lookup n.id).getD 5)
            (recent.filter (fun n => (recs.lookup n.id).isSome)))).map
              (fun n => n.id)).Sublist
          ((sortScoresDesc (fun n => (recs.lookup n.id).getD 5)
            (recent.filter (fun n => (recs.lookup n.id).isSome))).map
              (fun n => n.id)) :=
        (pySlice_sublist k _).map _
      have hcore : ((pySlice k (sortScoresDesc (fun n => (recs.lookup n.id).getD 5)
            (recent.filter (fun n => (recs.lookup n.id).isSome)))).map
              (fun n => n.id)).Nodup ∧
          ∀ y ∈ (pySlice k (sortScoresDesc (fun n => (recs.lookup n.id).getD 5)
            (recent.filter (fun n => (recs.lookup n.id).isSome)))).map
              (fun n => n.id),
            y ∈ recent.map (fun n => n.id) := by
        refine ⟨List.Nodup.sublist hll (hperm.nodup_iff.mpr
          (List.Nodup.sublist hfil hrec)), fun y hy => ?_⟩
        exact hfil.subset (hperm.subset (hll.subset hy))
      split
      · split
        · rw [map_id_filterMap_findNews]
          refine ⟨List.Nodup.filter _ hcore.1, fun y hy => ?_⟩
          exact hcore.2 y (List.mem_of_mem_filter hy)
        · exact hcore
      · exact hcore
  · exact hA _ ((pySlice_sublist k recent).map _)

end WarmLemmas

/-- C3 (amended): a warm-path request either aborts into the trending
fallback — the content step `await`s the synchronous
`search_similar_news`, raising whenever a seed resolves — or completes
with an empty content bucket, and in every completed run the final list
contains no duplicate item_ids (collaborative ids are distinct, the LLM
pool excludes them via the `$nin` query, and the diversify call is the
identity).  The list can, however, contain item_ids the user has
already interacted with: neither the LLM pool nor the trending fallback
filters against the user's interaction history. -/
theorem C3_amended_completed_runs_nodup (inp : WarmInputs) (limit : Nat)
    (hnews : (inp.allNews.map (fun n => n.id)).Nodup)
    (hcf : inp.cfIds.Nodup) :
    (contentStepRaises inp = true → warmPath inp limit = inp.trending) ∧
      (contentStepRaises inp = false →
        ((warmPath inp limit).map (fun n => n.id)).Nodup) := by
  constructor
  · intro h
    unfold warmPath
    rw [if_pos h]
  · intro h
    have hpool : ((recentPool inp [] limit).map (fun n => n.id)).Nodup :=
      List.Nodup.sublist
        (((List.take_sublist _ _).trans (List.filter_sublist _)).map _) hnews
    have hllm := llmNewsList_ids inp (recentPool inp [] limit)
      ((limit : Int) - inp.cfIds.length) hpool
    unfold warmPath
    rw [if_neg (by simp [h])]
    rw [List.map_take]
    refine List.Nodup.sublist (List.take_sublist _ _) ?_
    rw [List.map_append]
    refine List.Nodup.append ?_ hllm.1 ?_
    · rw [map_id_filterMap_findNews]
      exact List.Nodup.filter _ hcf
    · intro a ha hb
      rw [map_id_filterMap_findNews] at ha
      have hacf : a ∈ inp.cfIds := List.mem_of_mem_filter ha
      have hrec := hllm.2 a hb
      obtain ⟨n, hn, rfl⟩ := List.mem_map.mp hrec
      have hfilter := List.of_mem_filter (List.mem_of_mem_take hn)
      simp only [decide_eq_true_eq, Bool.and_eq_true, decide_not] at hfilter
      exact (by simpa using hfilter.1 : n.id ∉ inp.cfIds) hacf

/-- Warm-path inputs of a completed run containing an already-read
article: none of the user's 5 most recent interactions is in the parsed
store (so the run completes instead of aborting at the awaited sync
call), but the 6th interaction `"q"` is parsed and recent, and nothing
excludes it from the LLM recency pool. -/
def c3Inp : WarmInputs :=
  { allNews := [⟨"q", ["t"]⟩, ⟨"a", ["t"]⟩, ⟨"b", ["t"]⟩]
    userInteractionIds := ["p1", "p2", "p3", "p4", "p5", "q"]
    cfIds := []
    llmScores := none
    interests := ["tech"]
    diversity_level := 1
    trending := [] }

/-- C3 counterexample: for this warm-path user (6 interactions) with
`limit = 5`, the run completes and the final recommendation list is
`["q", "a", "b"]` — it contains `"q"`, which the user already
interacted with in the current window, refuting the no-repeat half of
the claim. -/
theorem C3_counterexample_contains_interacted :
    contentStepRaises c3Inp = false ∧
      (warmPath c3Inp 5).map (fun n => n.id) = ["q", "a", "b"] ∧
      "q" ∈ c3Inp.userInteractionIds := by
  refine ⟨by decide, ?_, by decide⟩
  decide

/-- Witness for C3 (amended) at the concrete inputs above. -/
theorem C3_amended_completed_runs_nodup_witness :
    (contentStepRaises c3Inp = true → warmPath c3Inp 5 = c3Inp.trending) ∧
      (contentStepRaises c3Inp = false →
        ((warmPath c3Inp 5).map (fun n => n.id)).Nodup) :=
  C3_amended_completed_runs_nodup c3Inp 5 (by decide) (by decide)

/-- The LLM candidate pool of the C4 run: the parsed store minus the
five collaborative picks — 9 candidates, within the `limit`-sized list
every caller hands the re-ranker. -/
def c4PoolNews : List NewsItem :=
  [⟨"b2", ["B"]⟩, ⟨"b3", ["B"]⟩, ⟨"b4", ["B"]⟩,
   ⟨"c1", ["C"]⟩, ⟨"c2", ["C"]⟩, ⟨"c3", ["C"]⟩,
   ⟨"d1", ["D"]⟩, ⟨"d2", ["D"]⟩, ⟨"d3", ["D"]⟩]

/-- The raw LLM scores (1–10) for the pool. -/
def c4Raw : List (String × ℚ) :=
  [("b2", 10), ("b3", 10), ("b4", 10), ("c1", 10), ("c2", 10),
   ("c3", 1), ("d1", 1), ("d2", 1), ("d3", 1)]

/-- The dict `get_recommendations` returns for the 9-candidate pool:
the raw scores after the diversity pass — its cap is
`max(2, 9 // 3) = 3` and every category holds exactly 3 pool
candidates, so nothing is demoted and the pass returns the scores
unchanged. -/
def c4Adjusted : List (String × ℚ) :=
  c4PoolNews.map (fun n => (n.id, diversityAdjust c4PoolNews c4Raw n.id))

/-- A completed warm run at `limit = 10`: the collaborative bucket
holds four `A` articles and one `B` (collaborative filtering is
category-blind and never diversity-capped), and the re-ranker sees the
9-candidate pool and returns `c4Adjusted`. -/
def c4WarmInp : WarmInputs :=
  { allNews := [⟨"a1", ["A"]⟩, ⟨"a2", ["A"]⟩, ⟨"a3", ["A"]⟩, ⟨"a4", ["A"]⟩,
      ⟨"b1", ["B"]⟩] ++ c4PoolNews
    userInteractionIds := ["p1", "p2", "p3"]
    cfIds := ["a1", "a2", "a3", "a4", "b1"]
    llmScores := some c4Adjusted
    interests := ["A"]
    diversity_level := 1
    trending := [] }

/-- C4 counterexample: a reachable run with `limit = 10`, positive
diversity level, four categories with ≥ 3 candidates each in the store,
and a re-ranker pool of only 9 ≤ limit candidates whose scores are
exactly the diversity-pass output — yet category `A` occupies
4 > max(2, 10/3) = 3 slots of the returned list, because the
collaborative bucket is never diversity-capped. -/
theorem C4_counterexample_category_exceeds_cap :
    ((warmPath c4WarmInp 10).filter
        (fun n => primaryCategory n = "A")).length = 4 ∧
      (∀ cat ∈ ["A", "B", "C", "D"],
        3 ≤ (c4WarmInp.allNews.filter (fun n => primaryCategory n = cat)).length) ∧
      (recentPool c4WarmInp [] 10).length ≤ 10 ∧
      c4WarmInp.llmScores = some c4Adjusted ∧
      ¬ ((warmPath c4WarmInp 10).filter
          (fun n => primaryCategory n = "A")).length ≤ max 2 (10 / 3) := by
  refine ⟨?_, by decide, by decide, rfl, ?_⟩ <;> decide

/-- Witness for C4 (amended) at the 9-candidate pool: the candidate
`"c3"` keeps its score or gets exactly 0.7 × it, and the pool-sized cap
is bounded by the limit-sized cap. -/
theorem C4_amended_demote_never_drop_witness :
    (diversityAdjust c4PoolNews c4Raw "c3" = recScore c4Raw "c3" ∨
      diversityAdjust c4PoolNews c4Raw "c3" = recScore c4Raw "c3" * (7/10)) ∧
      max 2 (c4PoolNews.length / 3) ≤ max 2 (10 / 3) :=
  ⟨(C4_amended_demote_never_drop c4PoolNews c4Raw (by decide) "c3").1,
   (C4_amended_demote_never_drop c4PoolNews c4Raw (by decide) "c3").2 10 (by decide)⟩

/-- The fallback list the collaborative service produces for `limit =
int(8 * 0.5) = 4` when the SVD is unavailable
(`_get_fallback_recommendations`: recency/category-based articles from
the user's history, an external-store query modelled as its result). -/
def c9Fallback : List String := ["f1", "f2", "f3", "f4"]

/-- A warm-path run with a failed matrix fit: `cfIds` is the output of
`cf_user_recommendations` with `svdAvailable = false` for the known
user `"u"`, i.e. the fallback pool.  None of the user's recent
interactions is in the parsed store, so the run completes (had any seed
resolved, the awaited synchronous `search_similar_news` would raise and
the request would return trending news instead). -/
def c9Inp : WarmInputs :=
  { allNews := [⟨"f1", ["t"]⟩, ⟨"f2", ["t"]⟩, ⟨"f3", ["t"]⟩, ⟨"f4", ["t"]⟩,
      ⟨"l1", ["t"]⟩, ⟨"l2", ["t"]⟩, ⟨"l3", ["t"]⟩, ⟨"l4", ["t"]⟩]
    userInteractionIds := ["p1", "p2", "p3"]
    cfIds := cf_user_recommendations ["u"] [] (fun _ => 0) (fun _ => 0) false "u" 4
      c9Fallback
    llmScores := none
    interests := ["tech"]
    diversity_level := 1
    trending := [] }

/-- C9 counterexample: on a fit failure, the completed run of
`recommend("u", 8, 0.3)` does return 8 items and no exception escapes,
but they are not sourced from the content pool and the 50%
collaborative share is not reallocated to content: the first four slots
are the CF fallback pool `f1..f4` and the rest come from the recency
pool — the content bucket is empty, since the content retriever is
never successfully consulted (the awaited synchronous call raises
whenever a seed resolves, aborting the whole request instead). -/
theorem C9_counterexample_no_content_reallocation :
    contentStepRaises c9Inp = false ∧
      c9Inp.cfIds = c9Fallback ∧
      (warmPath c9Inp 8).map (fun n => n.id) =
        ["f1", "f2", "f3", "f4", "l1", "l2", "l3", "l4"] := by
  refine ⟨by decide, by decide, ?_⟩
  decide

/-- C9 (amended): when the SVD is unavailable the collaborative service
returns its fallback list — the numeric failure never propagates
(`apply_svd` catches it and returns the empty triple, and the hybrid
entry point has a catch-all) — so the 50% collaborative share of a
completed warm run is filled from the CF fallback pool; the content
share is empty rather than expanded (the content step either aborts the
run or contributes nothing), the remaining slots come from the recency
pool, and the full `limit` of 8 items is still returned. -/
theorem C9_amended_fallback_fills_cf_share :
    (∀ (user_ids news_ids : List String) (mrow ur : Nat → ℚ)
        (uid : String) (limit : Nat) (fallback : List String),
      cf_user_recommendations user_ids news_ids mrow ur false uid limit fallback =
        fallback) ∧
      (warmPath c9Inp 8).length = 8 ∧
      ((warmPath c9Inp 8).map (fun n => n.id)).take 4 = c9Fallback := by
  refine ⟨?_, by decide, by decide⟩
  intro user_ids news_ids mrow ur uid limit fallback
  unfold cf_user_recommendations
  split <;> rfl

/-- C10: an interaction whose type is absent from `interaction_weights`
gets the default base weight 1.0 (it is not skipped or zero-weighted),
and a missing `interaction_type` field is read as `"click"`, which also
weighs 1.0. -/
theorem C10_unknown_type_default_weight (i : Interaction) :
    (∀ t, i.interaction_type = some t → interaction_weights.lookup t = none →
        baseWeight i = 1) ∧
      (i.interaction_type = none → baseWeight i = 1) := by
  constructor
  · intro t ht hl
    unfold baseWeight
    rw [ht]
    simp [hl]
  · intro ht
    unfold baseWeight
    rw [ht]
    simp [interaction_weights, List.lookup]

/-- Witness for C10: the type `"bookmarked_it"` (resp. a missing type
field) yields base weight 1.0. -/
theorem C10_unknown_type_default_weight_witness :
    interaction_weights.lookup "star" = none ∧
      baseWeight ⟨"u", "n", some "star", none, none⟩ = 1 ∧
      baseWeight ⟨"u", "n", none, none, none⟩ = 1 :=
  ⟨by decide,
   (C10_unknown_type_default_weight ⟨"u", "n", some "star", none, none⟩).1 "star" rfl
     (by decide),
   (C10_unknown_type_default_weight ⟨"u", "n", none, none, none⟩).2 rfl⟩

end AINRS
